import Mathlib

/-!
Verification development for the Tsepepe code-insertion-point and
text-synthesis core.  The definitions below are a shallow embedding of

  * `full_function_declaration_expander.cpp` (declaration text synthesizer),
  * `finder.cpp` (insertion-point resolver, `SuitablePlaceInClassFinder`),
  * `pure_virtual_functions_extractor.cpp` (override-declaration deriver).

Clang front-end objects (`FunctionDecl`, `CXXMethodDecl`, `CXXRecordDecl`,
`SourceLocation`, tokens and the lexer) are modelled as explicit data; the
values the front end would compute (printed types, source-range contents,
qualified names, token streams) are inputs of the model.
-/

instance instDecEqExcept {ε α : Type} [DecidableEq ε] [DecidableEq α] :
    DecidableEq (Except ε α) := fun a b =>
  match a, b with
  | .error x, .error y =>
    if h : x = y then isTrue (congrArg Except.error h)
    else isFalse fun hc => h (Except.error.inj hc)
  | .ok x, .ok y =>
    if h : x = y then isTrue (congrArg Except.ok h)
    else isFalse fun hc => h (Except.ok.inj hc)
  | .error _, .ok _ => isFalse fun hc => Except.noConfusion hc
  | .ok _, .error _ => isFalse fun hc => Except.noConfusion hc

/-! ## String joining

`cpp_join` mirrors the C++ `join` template of the expander: it seeds the
accumulator with the first element and `std::accumulate`s `result + delim +
elem` over the rest.  `spec_join` is the straightforward recursive
formulation used on the specification side. -/

def cpp_join (l : List String) (delim : String) : String :=
  match l with
  | [] => ""
  | x :: xs => xs.foldl (fun r e => r ++ delim ++ e) x

def spec_join (delim : String) : List String → String
  | [] => ""
  | [x] => x
  | x :: y :: rest => x ++ delim ++ spec_join delim (y :: rest)

/-! ## Declaration text synthesizer (`full_function_declaration_expander.cpp`) -/

structure FullFunctionDeclarationExpanderOptions where
  ignore_attribute_specifiers : Bool
deriving DecidableEq, Repr

structure AttrInfo where
  isStandardSyntaxAttr : Bool
  rangeText : String
deriving DecidableEq, Repr

structure ParamInfo where
  typeText : String
  nameText : String
deriving DecidableEq, Repr

inductive RefQualifierKind where
  | RQ_None
  | RQ_LValue
  | RQ_RValue
deriving DecidableEq, Repr

/-- Model of a clang `FunctionDecl` (and, through the method-only fields, of a
`CXXMethodDecl` viewed as a function declaration).  Each field holds the value
the corresponding front-end query would return:

* `attrs` — `node->getAttrs()`, with `isStandardAttributeSyntax()` and the
  source text of `attr->getRange()`;
* `returnTypeAsWritten` — source text of `node->getReturnTypeSourceRange()`;
* `returnTypeIsTemplateSpecialization` — whether
  `getReturnType()->getAs<TemplateSpecializationType>()` is non-null;
* `templateNameText` / `templateArgsText` — the fully-qualified template name
  and the pretty-printed template arguments;
* `returnTypeAsString` — `getReturnType().getAsString(printing_policy)`;
* `qualifiedName` — `node->getQualifiedNameAsString()`;
* `params` — printed type and qualified name of each parameter;
* `isMethod` — whether the `dynamic_cast<const CXXMethodDecl*>` succeeds;
* `isConst`, `refQualifier` — method qualifiers;
* `hasExceptionSpecSourceRange` — `getExceptionSpecSourceRange().isInvalid()`
  negated, with `exceptionSpecText` the source text of that range. -/
structure FunctionDecl where
  attrs : List AttrInfo
  returnTypeAsWritten : String
  returnTypeIsTemplateSpecialization : Bool
  templateNameText : String
  templateArgsText : List String
  returnTypeAsString : String
  qualifiedName : String
  params : List ParamInfo
  isMethod : Bool
  isConst : Bool
  refQualifier : RefQualifierKind
  hasExceptionSpecSourceRange : Bool
  exceptionSpecText : String
deriving DecidableEq, Repr

def get_standard_attributes (f : FunctionDecl) : String :=
  cpp_join
    (f.attrs.filterMap fun a =>
      if a.isStandardSyntaxAttr then some ("[[" ++ a.rangeText ++ "]]") else none)
    " "

def stringify_template_specialization (f : FunctionDecl) : String :=
  f.templateNameText ++ "<" ++ cpp_join f.templateArgsText ", " ++ ">"

def get_return_type (f : FunctionDecl) : String :=
  if f.returnTypeAsWritten.isEmpty then ""
  else if f.returnTypeIsTemplateSpecialization then stringify_template_specialization f
  else f.returnTypeAsString

def param_to_string (p : ParamInfo) : String :=
  if !p.nameText.isEmpty then p.typeText ++ " " ++ p.nameText else p.typeText

def get_parameters (f : FunctionDecl) : String :=
  "(" ++ cpp_join (f.params.map param_to_string) ", " ++ ")"

def get_ref_qualifier (f : FunctionDecl) : String :=
  match f.refQualifier with
  | .RQ_LValue => "&"
  | .RQ_RValue => "&&"
  | .RQ_None => ""

def get_noexcept_qualifier (f : FunctionDecl) : String :=
  if f.hasExceptionSpecSourceRange then f.exceptionSpecText else ""

/-- `Tsepepe::fully_expand_function_declaration`: builds `result_parted`,
removes the empty fragments (`std::ranges::remove_if` keeps the non-empty
ones in order) and joins with a single space. -/
def fully_expand_function_declaration (f : FunctionDecl)
    (options : FullFunctionDeclarationExpanderOptions) : String :=
  let parts0 : List String := []
  let parts1 :=
    if !options.ignore_attribute_specifiers then parts0 ++ [get_standard_attributes f]
    else parts0
  let parts2 := parts1 ++ [get_return_type f]
  let parts3 := parts2 ++ [f.qualifiedName ++ get_parameters f]
  let parts4 :=
    if f.isMethod then
      parts3 ++ [if f.isConst then "const" else ""] ++ [get_ref_qualifier f]
        ++ [get_noexcept_qualifier f]
    else parts3
  cpp_join (parts4.filter fun s => !s.isEmpty) " "

/-! ## Token and location model (`finder.cpp` collaborators) -/

structure SourceLocation where
  valid : Bool
  offset : Nat
deriving DecidableEq, Repr

inductive TokKind where
  | semi
  | l_brace
  | other
deriving DecidableEq, Repr

structure Token where
  kind : TokKind
  loc : Nat
deriving DecidableEq, Repr

/-- The token stream, modelled as the front end's "next lexical token strictly
after this byte offset" query.  An arbitrary function is allowed, so
pathological and adversarial streams are part of the model. -/
structure Lexer where
  next : Nat → Option Token

def invalid_location : SourceLocation := ⟨false, 0⟩

def token_location (t : Token) : SourceLocation := ⟨true, t.loc⟩

/-- Models `clang::Lexer::findNextToken`: on an invalid source location clang
cannot decompose the location into a file buffer and yields no token. -/
def findNextToken (lx : Lexer) (loc : SourceLocation) : Option Token :=
  if loc.valid then lx.next loc.offset else none

inductive AccessSpecifier where
  | AS_public
  | AS_protected
  | AS_private
deriving DecidableEq, Repr

/-- Model of a clang `CXXMethodDecl` as seen by the finder and the
override-declaration deriver: access, implicitness, purity, the method's end
source location, the qualified name of `method->getParent()`, and its
function-declaration view used by the synthesizer. -/
structure CXXMethodDecl where
  func : FunctionDecl
  access : AccessSpecifier
  isImplicit : Bool
  isPure : Bool
  endLoc : SourceLocation
  parentQualifiedName : String
deriving DecidableEq, Repr

/-- Model of a clang `CXXRecordDecl`: the method list in declaration order,
`isStruct()`, the byte offsets of the class body's source range, and the base
records `forallBases` would visit, in the front end's visitation order. -/
inductive CXXRecordDecl where
  | mk (methods : List CXXMethodDecl) (isStruct : Bool)
      (bodyBeginOffset : Nat) (bodyEndOffset : Nat)
      (allBases : List CXXRecordDecl)

def CXXRecordDecl.methods : CXXRecordDecl → List CXXMethodDecl
  | ⟨ms, _, _, _, _⟩ => ms

def CXXRecordDecl.isStruct : CXXRecordDecl → Bool
  | ⟨_, s, _, _, _⟩ => s

def CXXRecordDecl.bodyBeginOffset : CXXRecordDecl → Nat
  | ⟨_, _, b, _, _⟩ => b

def CXXRecordDecl.bodyEndOffset : CXXRecordDecl → Nat
  | ⟨_, _, _, e, _⟩ => e

def CXXRecordDecl.allBases : CXXRecordDecl → List CXXRecordDecl
  | ⟨_, _, _, _, bs⟩ => bs

/-! ## Insertion-point resolver (`finder.cpp`) -/

structure SuitablePublicMethodPlaceInCppFile where
  offset : Nat
  is_public_section_needed : Bool
deriving DecidableEq, Repr

inductive BaseError where
  | tokenEmpty
  | tokenInvalidLocation
deriving DecidableEq, Repr

def is_public_explicit_method (m : CXXMethodDecl) : Bool :=
  match m.access with
  | .AS_public => !m.isImplicit
  | _ => false

/-- The extension loop of
`find_location_after_last_public_method_in_the_first_chain`: starting from a
method that satisfies the predicate, keep the last consecutive method that
still satisfies it. -/
def last_public_method_in_chain (m : CXXMethodDecl) :
    List CXXMethodDecl → CXXMethodDecl
  | [] => m
  | x :: xs => if is_public_explicit_method x then last_public_method_in_chain x xs else m

/-- `SuitablePlaceInClassFinder::find_location_after_last_public_method_in_the_first_chain`:
`std::ranges::find_if` for the first explicit public method (here: dropping
the non-matching front of the method list), then the chain-extension loop,
returning `getEndLoc()` of the last method of the first public chain. -/
def find_location_after_last_public_method_in_the_first_chain
    (record : CXXRecordDecl) : Option SourceLocation :=
  match record.methods.dropWhile (fun m => !is_public_explicit_method m) with
  | [] => none
  | m :: rest => some (last_public_method_in_chain m rest).endLoc

def unpack_source_location_from_token : Option Token → Except BaseError SourceLocation
  | none => .error .tokenEmpty
  | some t =>
    if (token_location t).valid then .ok (token_location t)
    else .error .tokenInvalidLocation

def token_is_semi (t : Token) : Bool :=
  match t.kind with
  | .semi => true
  | _ => false

def opt_token_is_semi : Option Token → Bool
  | some t => token_is_semi t
  | none => false

/-- The bounded terminator-skipping loop of
`get_insert_offset_after_location` (`for (unsigned i{0}; i < 1000; ++i)`),
together with the number of `findNextToken` calls it makes.  Each iteration
queries the next token; the loop stops when the lexer runs out, when a
non-terminator token is reached (the loop sets `current_location` to that
token first), or when the iteration cap is hit. -/
def semiScanAux (lx : Lexer) : Nat → Nat → Nat × Nat
  | 0, cur => (cur, 0)
  | fuel + 1, cur =>
    match lx.next cur with
    | none => (cur, 1)
    | some t =>
      match t.kind with
      | .semi =>
        let r := semiScanAux lx fuel t.loc
        (r.1, r.2 + 1)
      | _ => (t.loc, 1)

def semiScan (lx : Lexer) (fuel : Nat) (cur : Nat) : Nat :=
  (semiScanAux lx fuel cur).1

/-- `std::find(begin_it, end_it, char)` over a contiguous char range: position
of the first match inside the range, relative to the range's begin. -/
def std_find_pos (p : Char → Bool) : List Char → Option Nat
  | [] => none
  | c :: rest => if p c then some 0 else (std_find_pos p rest).map (· + 1)

/-- The newline search of `get_insert_offset_after_location`:
`std::find(begin_it, end_it, char(10))` over the buffer slice
`[begin_offset, end_offset)`, returning the absolute buffer index of the first
newline if any. -/
def std_find_newline (content : String) (b e : Nat) : Option Nat :=
  (std_find_pos (fun c => c = '\n') ((content.data.drop b).take (e - b))).map (b + ·)

/-- `SuitablePlaceInClassFinder::get_insert_offset_after_location`. -/
def get_insert_offset_after_location (lx : Lexer) (content : String)
    (location : SourceLocation) : Except BaseError Nat :=
  let ftok := findNextToken lx location
  match unpack_source_location_from_token ftok with
  | .error err => .error err
  | .ok begin_location =>
    let end_offset :=
      if opt_token_is_semi ftok then semiScan lx 1000 begin_location.offset
      else begin_location.offset
    match std_find_newline content begin_location.offset end_offset with
    | some i => .ok (i + 1)
    | none => .ok end_offset

/-- `SuitablePlaceInClassFinder::find`: `SourceLocation result;` stays the
invalid default location when no public method chain exists, and
`is_public_section_needed` is initialized `false` and never written again. -/
def SuitablePlaceInClassFinder_find (lx : Lexer) (content : String)
    (record : CXXRecordDecl) : Except BaseError SuitablePublicMethodPlaceInCppFile :=
  let result :=
    match find_location_after_last_public_method_in_the_first_chain record with
    | some l => l
    | none => invalid_location
  match get_insert_offset_after_location lx content result with
  | .error e => .error e
  | .ok off => .ok ⟨off, false⟩

/-- `Tsepepe::find_suitable_place_in_class_for_public_method`: the function
returns `SuitablePlaceInClassFinder{...}.find()` unconditionally on its first
statement; the fallback chain written after that `return` (public-section
grep, opening-brace scan) is unreachable and is therefore not part of the
behaviour modelled here. -/
def find_suitable_place_in_class_for_public_method (lx : Lexer) (content : String)
    (record : CXXRecordDecl) : Except BaseError SuitablePublicMethodPlaceInCppFile :=
  SuitablePlaceInClassFinder_find lx content record

/-! ## Override-declaration deriver (`pure_virtual_functions_extractor.cpp`) -/

def startsWithChars : List Char → List Char → Bool
  | [], _ => true
  | _ :: _, [] => false
  | p :: ps, c :: cs => p == c && startsWithChars ps cs

/-- Leftmost, non-overlapping removal of every occurrence of `pat`, scanning
left to right; the fuel argument is always instantiated with the text length,
which bounds the scan. -/
def replace_all_fuel (pat : List Char) : Nat → List Char → List Char
  | 0, s => s
  | _ + 1, [] => []
  | fuel + 1, c :: rest =>
    if startsWithChars pat (c :: rest) && !pat.isEmpty then
      replace_all_fuel pat fuel (List.drop (pat.length - 1) rest)
    else c :: replace_all_fuel pat fuel rest

def strip_group_parens (pat : List Char) : List Char :=
  pat.filter fun c => !(c == '(') && !(c == ')')

/-- Models `std::regex_replace(text, std::regex{pat}, "")` for the patterns
this program builds: qualified-name text whose only ECMAScript metacharacters
are the grouping parentheses of spellings like `(anonymous namespace)`.  A
grouping parenthesis is transparent to matching, so such a pattern matches
exactly the literal pattern text with the parentheses removed, and
`regex_replace` removes every leftmost non-overlapping match. -/
def regex_remove_all (pat text : String) : String :=
  String.mk (replace_all_fuel (strip_group_parens pat.data) text.data.length text.data)

/-- The body of the `append_override_declaration` lambda: synthesize the
declaration with default options (attributes included), delete the
`Parent::` qualification via `std::regex_replace`, append `" override;"`. -/
def override_declaration_text (m : CXXMethodDecl) : String :=
  regex_remove_all (m.parentQualifiedName ++ "::")
      (fully_expand_function_declaration m.func ⟨false⟩)
    ++ " override;"

def append_override_declaration (acc : List String) (m : CXXMethodDecl) : List String :=
  acc ++ [override_declaration_text m]

/-- The `collect_override_declarations` lambda: for each method of the record,
in declaration order, append an override declaration when the method is pure. -/
def collect_override_declarations (acc : List String) (r : CXXRecordDecl) : List String :=
  r.methods.foldl (fun a m => if m.isPure then append_override_declaration a m else a) acc

/-- `Tsepepe::pure_virtual_functions_to_override_declarations`:
`node->forallBases` collects from every visited base (the callback always
returns `true`, so every base in visitation order is processed), then the
node itself is processed. -/
def pure_virtual_functions_to_override_declarations (node : CXXRecordDecl) : List String :=
  collect_override_declarations
    (node.allBases.foldl collect_override_declarations []) node

/-! ## Specification-side definitions

These restate, in the specification's own words, the text-assembly rules the
claims compare the code against (fragment list, single-space join of the
non-empty fragments, the first-public-method-chain newline rule). -/

def spec_attrs_fragment (f : FunctionDecl) : String :=
  spec_join " "
    ((f.attrs.filter fun a => a.isStandardSyntaxAttr).map
      fun a => "[[" ++ a.rangeText ++ "]]")

def spec_return_fragment (f : FunctionDecl) : String :=
  if f.returnTypeAsWritten.isEmpty then ""
  else if f.returnTypeIsTemplateSpecialization then
    f.templateNameText ++ "<" ++ spec_join ", " f.templateArgsText ++ ">"
  else f.returnTypeAsString

def spec_param_fragment (p : ParamInfo) : String :=
  if p.nameText.isEmpty then p.typeText else p.typeText ++ " " ++ p.nameText

def spec_name_params_fragment (f : FunctionDecl) : String :=
  f.qualifiedName ++ "(" ++ spec_join ", " (f.params.map spec_param_fragment) ++ ")"

def spec_const_fragment (f : FunctionDecl) : String :=
  if f.isConst then "const" else ""

def spec_ref_fragment (f : FunctionDecl) : String :=
  match f.refQualifier with
  | .RQ_LValue => "&"
  | .RQ_RValue => "&&"
  | .RQ_None => ""

def spec_noexcept_fragment (f : FunctionDecl) : String :=
  if f.hasExceptionSpecSourceRange then f.exceptionSpecText else ""

/-- The fragment list of spec §4.1: standard attributes (unless skipped),
return type, qualified name immediately followed by the parenthesized
comma-space-joined parameter list, and for methods only the `const` token,
the ref-qualifier and the verbatim exception specification. -/
def spec_fragments (f : FunctionDecl)
    (options : FullFunctionDeclarationExpanderOptions) : List String :=
  (if options.ignore_attribute_specifiers then [] else [spec_attrs_fragment f])
    ++ [spec_return_fragment f, spec_name_params_fragment f]
    ++ (if f.isMethod then
          [spec_const_fragment f, spec_ref_fragment f, spec_noexcept_fragment f]
        else [])

/-- Spec §4.1: drop the empty fragments and join with single spaces. -/
def spec_synthesize (f : FunctionDecl)
    (options : FullFunctionDeclarationExpanderOptions) : String :=
  spec_join " " ((spec_fragments f options).filter fun s => !s.isEmpty)

/-- Spec-side newline scan: the first buffer index `i` with `b ≤ i < b + fuel`
holding a newline character, scanning forward one index at a time. -/
def scan_for_newline (chars : List Char) (b : Nat) : Nat → Option Nat
  | 0 => none
  | fuel + 1 =>
    match chars[b]? with
    | some c => if c = '\n' then some b else scan_for_newline chars (b + 1) fuel
    | none => none

/-- The insertion-offset rule of spec §4.2 item 1, for given scan endpoints:
scan the buffer between offsets `b` and `e` for the first newline; if found
the offset is one past it, otherwise it is `e`. -/
def spec_newline_rule_offset (content : String) (b e : Nat) : Nat :=
  match scan_for_newline content.data b (e - b) with
  | some i => i + 1
  | none => e

/-- The anchor of spec §4.2 item 1: the first token after the given location;
if it is a `;`, the location reached by the bounded terminator skip. -/
def spec_anchor_offset (lx : Lexer) (t : Token) : Nat :=
  if token_is_semi t then semiScan lx 1000 t.loc else t.loc

/-! ## Well-formedness conditions used as hypotheses -/

/-- One front-end sanity condition at offset `o`, bounded by the class body
end `e`: the next token after a location inside the body starts strictly
later, starts no later than the body's closing brace, and a statement
terminator cannot sit at the closing brace's own offset. -/
def next_ok (lx : Lexer) (e o : Nat) : Bool :=
  match lx.next o with
  | none => true
  | some t =>
    decide (o < t.loc) && decide (t.loc ≤ e) &&
      (match t.kind with
       | .semi => decide (t.loc < e)
       | _ => true)

/-- When the first public method chain exists, its end location is a valid
location inside the class body (strictly before the closing brace). -/
def chain_loc_in_body (record : CXXRecordDecl) : Bool :=
  match find_location_after_last_public_method_in_the_first_chain record with
  | none => true
  | some l =>
    l.valid && decide (record.bodyBeginOffset ≤ l.offset) &&
      decide (l.offset < record.bodyEndOffset)

/-- `'['`-freeness of the model strings a declaration is synthesized from
(everything except the attribute texts). -/
def bracket_free_string (s : String) : Bool :=
  s.data.all fun c => !(c == '[')

def bracket_free_inputs (f : FunctionDecl) : Bool :=
  bracket_free_string f.returnTypeAsString &&
  bracket_free_string f.templateNameText &&
  f.templateArgsText.all bracket_free_string &&
  bracket_free_string f.qualifiedName &&
  f.params.all (fun p => bracket_free_string p.typeText && bracket_free_string p.nameText) &&
  bracket_free_string f.exceptionSpecText

/-- `true` when the char list contains two adjacent opening brackets, the
mark of a `[[...]]` attribute fragment. -/
def contains_double_bracket : List Char → Bool
  | [] => false
  | [_] => false
  | c1 :: c2 :: rest => (c1 == '[' && c2 == '[') || contains_double_bracket (c2 :: rest)

/-- The fragments a free (non-method) declaration is assembled from. -/
def free_function_fragments (f : FunctionDecl)
    (options : FullFunctionDeclarationExpanderOptions) : List String :=
  (if options.ignore_attribute_specifiers then [] else [get_standard_attributes f])
    ++ [get_return_type f, f.qualifiedName ++ get_parameters f]

/-- The override declarations one record contributes: one entry per
pure-virtual method, in declaration order. -/
def record_override_texts (r : CXXRecordDecl) : List String :=
  (r.methods.filter fun m => m.isPure).map override_declaration_text

/-! ## Concrete scenarios used by witnesses and counterexamples -/

/-- A class `class C { void priv(); };` with a single explicit private method
and no `public:` label: the first-public-method-chain rule does not apply. -/
def c1_func : FunctionDecl :=
  ⟨[], "void", false, "", [], "void", "C::priv", [], true, false, .RQ_None, false, ""⟩

def c1_record : CXXRecordDecl :=
  ⟨[⟨c1_func, .AS_private, false, false, ⟨true, 15⟩, "C"⟩], false, 7, 20, []⟩

/-- A lexer with a token after every offset, so the error below cannot be
blamed on the token stream running out. -/
def c1_lexer : Lexer := ⟨fun o => some ⟨.other, o + 1⟩⟩

/-- An empty class `class C {};`: zero methods, zero bases. -/
def c2_record : CXXRecordDecl := ⟨[], false, 8, 9, []⟩

def c2_lexer : Lexer := ⟨fun o => some ⟨.other, o + 1⟩⟩

/-- Buffer `class C{public: void f(){}\n  };`: the public method `f` ends at
the `}` of its body (offset 25), a newline sits at offset 26, and the next
token after the method is the class's closing brace at offset 29. -/
def cexContent : String := "class C\x7bpublic: void f()\x7b\x7d\n  \x7d;"

def cexLexer : Lexer := ⟨fun o => if o == 25 then some ⟨.other, 29⟩ else none⟩

def cexFunc : FunctionDecl :=
  ⟨[], "void", false, "", [], "void", "C::f", [], true, false, .RQ_None, false, ""⟩

def cexMethod : CXXMethodDecl := ⟨cexFunc, .AS_public, false, false, ⟨true, 25⟩, "C"⟩

def cexRecord : CXXRecordDecl := ⟨[cexMethod], false, 7, 29, []⟩

/-- An interface inside an anonymous namespace; its qualified name spells
regex metacharacters `(` and `)`. -/
def anonFunc : FunctionDecl :=
  ⟨[], "void", false, "", [], "void", "(anonymous namespace)::Iface::run", [], true, false,
    .RQ_None, false, ""⟩

def anonMethod : CXXMethodDecl :=
  ⟨anonFunc, .AS_public, false, true, ⟨true, 0⟩, "(anonymous namespace)::Iface"⟩

def anonNode : CXXRecordDecl := ⟨[anonMethod], false, 0, 40, []⟩

/-- A plain interface `I` with one pure-virtual method `run`. -/
def w5Func : FunctionDecl :=
  ⟨[], "void", false, "", [], "void", "I::run", [], true, false, .RQ_None, false, ""⟩

def w5Method : CXXMethodDecl := ⟨w5Func, .AS_public, false, true, ⟨true, 0⟩, "I"⟩

def w5Node : CXXRecordDecl := ⟨[w5Method], false, 0, 20, []⟩

/-- Token world for the containment witness: a public method ends at offset
20 inside a class body spanning `[10, 26]`; a `;` sits at offset 21, the
closing brace at offset 26, and the buffer has a newline at offset 22. -/
def w3lexer : Lexer :=
  ⟨fun o => if o < 21 then some ⟨.semi, 21⟩ else if o < 26 then some ⟨.other, 26⟩ else none⟩

def w3content : String := "abcdefghijklmnopqrstuv\nwxyz"

def w3func : FunctionDecl :=
  ⟨[], "void", false, "", [], "void", "X::f", [], true, false, .RQ_None, false, ""⟩

def w3record : CXXRecordDecl :=
  ⟨[⟨w3func, .AS_public, false, false, ⟨true, 20⟩, "X"⟩], false, 10, 26, []⟩

/-- A method carrying a standard-syntax attribute, for the attribute-stripping
witness. -/
def w8func : FunctionDecl :=
  ⟨[⟨true, "nodiscard"⟩], "int", false, "", [], "int", "S::get", [], true, false, .RQ_None,
    false, ""⟩

/-- A free function `int main()`. -/
def w10func : FunctionDecl :=
  ⟨[], "int", false, "", [], "int", "main", [], false, false, .RQ_None, false, ""⟩

/-! ## Helper lemmas -/

theorem foldl_join_eq (d : String) (xs : List String) : ∀ x : String,
    xs.foldl (fun r e => r ++ d ++ e) x = spec_join d (x :: xs) := by
  induction xs with
  | nil => intro x; rfl
  | cons y ys ih =>
    intro x
    rw [List.foldl_cons, ih (x ++ d ++ y)]
    cases ys with
    | nil => rfl
    | cons z zs => simp only [spec_join, String.append_assoc]

theorem cpp_join_eq_spec_join (d : String) (l : List String) :
    cpp_join l d = spec_join d l := by
  cases l with
  | nil => rfl
  | cons x xs => exact foldl_join_eq d xs x

theorem filterMap_if_eq {α β : Type} (p : α → Bool) (g : α → β) :
    ∀ l : List α,
      l.filterMap (fun a => if p a then some (g a) else none) = (l.filter p).map g := by
  intro l
  induction l with
  | nil => rfl
  | cons a as ih =>
    cases h : p a <;> simp [List.filterMap_cons, List.filter_cons, h, ih]

theorem get_standard_attributes_eq (f : FunctionDecl) :
    get_standard_attributes f = spec_attrs_fragment f := by
  unfold get_standard_attributes spec_attrs_fragment
  rw [filterMap_if_eq, cpp_join_eq_spec_join]

theorem get_return_type_eq (f : FunctionDecl) :
    get_return_type f = spec_return_fragment f := by
  unfold get_return_type spec_return_fragment stringify_template_specialization
  rw [cpp_join_eq_spec_join]

theorem param_to_string_eq (p : ParamInfo) :
    param_to_string p = spec_param_fragment p := by
  unfold param_to_string spec_param_fragment
  cases h : p.nameText.isEmpty <;> simp [h]

theorem get_parameters_eq (f : FunctionDecl) :
    f.qualifiedName ++ get_parameters f = spec_name_params_fragment f := by
  unfold get_parameters spec_name_params_fragment
  rw [cpp_join_eq_spec_join, funext param_to_string_eq]
  simp only [String.append_assoc]

theorem get_ref_qualifier_eq (f : FunctionDecl) :
    get_ref_qualifier f = spec_ref_fragment f := rfl

theorem get_noexcept_qualifier_eq (f : FunctionDecl) :
    get_noexcept_qualifier f = spec_noexcept_fragment f := rfl

/-- Claim C7: the declaration text produced by the synthesizer equals the
single-space join of the non-empty fragments, in order: standard attributes,
return type, qualified name immediately followed by the parenthesized
comma-space-joined parameter list, and, for methods only, `const` iff the
method is const-qualified, the ref-qualifier (`&` lvalue, `&&` rvalue,
omitted for none) and the verbatim exception-specification text (omitted if
none is written); empty fragments are dropped before joining. -/
theorem claim_C7 (f : FunctionDecl) (options : FullFunctionDeclarationExpanderOptions) :
    fully_expand_function_declaration f options = spec_synthesize f options := by
  unfold fully_expand_function_declaration spec_synthesize spec_fragments
  rw [cpp_join_eq_spec_join]
  cases hig : options.ignore_attribute_specifiers <;> cases him : f.isMethod <;>
    simp [hig, him, get_standard_attributes_eq, get_return_type_eq, get_parameters_eq,
      get_ref_qualifier_eq, get_noexcept_qualifier_eq, spec_const_fragment]

/-- Claim C10: for a declaration that is not a class method, the synthesized
text is assembled from the attribute, return-type and
qualified-name-plus-parameter-list fragments only; no `const`, ref-qualifier
or exception-specification fragment is ever appended. -/
theorem claim_C10 (f : FunctionDecl) (options : FullFunctionDeclarationExpanderOptions)
    (h : f.isMethod = false) :
    fully_expand_function_declaration f options =
      cpp_join ((free_function_fragments f options).filter fun s => !s.isEmpty) " " := by
  unfold fully_expand_function_declaration free_function_fragments
  cases hig : options.ignore_attribute_specifiers <;> simp [h, hig]

/-- Witness for C10 at the free function `int main()`. -/
theorem claim_C10_witness :
    w10func.isMethod = false ∧
    fully_expand_function_declaration w10func ⟨false⟩ =
      cpp_join ((free_function_fragments w10func ⟨false⟩).filter fun s => !s.isEmpty) " " ∧
    fully_expand_function_declaration w10func ⟨false⟩ = "int main()" :=
  ⟨rfl, claim_C10 w10func ⟨false⟩ rfl, by decide⟩

theorem collect_eq (r : CXXRecordDecl) : ∀ acc : List String,
    collect_override_declarations acc r = acc ++ record_override_texts r := by
  unfold collect_override_declarations record_override_texts
  generalize r.methods = ms
  induction ms with
  | nil => intro acc; simp
  | cons m rest ih =>
    intro acc
    cases h : m.isPure with
    | false =>
      simp only [List.foldl_cons, List.filter_cons, h, Bool.false_eq_true, ite_false]
      exact ih acc
    | true =>
      simp only [List.foldl_cons, List.filter_cons, h, ite_true]
      rw [ih (append_override_declaration acc m)]
      simp [append_override_declaration, List.append_assoc]

theorem bases_fold_eq : ∀ (bs : List CXXRecordDecl) (acc : List String),
    bs.foldl collect_override_declarations acc = acc ++ bs.flatMap record_override_texts := by
  intro bs
  induction bs with
  | nil => intro acc; simp
  | cons b rest ih =>
    intro acc
    rw [List.foldl_cons, ih, collect_eq]
    simp [List.append_assoc]

theorem pvo_characterization (node : CXXRecordDecl) :
    pure_virtual_functions_to_override_declarations node =
      node.allBases.flatMap record_override_texts ++ record_override_texts node := by
  unfold pure_virtual_functions_to_override_declarations
  rw [collect_eq, bases_fold_eq]
  simp

/-- Claim C6: the override deriver collects, in order, the pure-virtual
methods of every base record in the front end's visitation order and then of
the node itself, each record contributing its methods in declaration order;
nothing is deduplicated across records, so a function pure-virtual in two
records yields one entry per declaring record. -/
theorem claim_C6 (node : CXXRecordDecl) :
    pure_virtual_functions_to_override_declarations node =
      (node.allBases ++ [node]).flatMap record_override_texts := by
  rw [pvo_characterization]
  simp

/-- Claim C5 (amended): every entry of the derived override-declaration set
ends with exactly the suffix `" override;"`. -/
theorem claim_C5_amended (node : CXXRecordDecl) (e : String)
    (he : e ∈ pure_virtual_functions_to_override_declarations node) :
    ∃ pre, e = pre ++ " override;" := by
  rw [pvo_characterization] at he
  rcases List.mem_append.mp he with h | h
  · rcases List.mem_flatMap.mp h with ⟨r, _, hr⟩
    rcases List.mem_map.mp hr with ⟨m, _, hm⟩
    exact ⟨_, hm.symm⟩
  · rcases List.mem_map.mp (by
      have := h
      unfold record_override_texts at this
      exact this) with ⟨m, _, hm⟩
    exact ⟨_, hm.symm⟩

/-- Witness for the amended C5 at a plain interface `I` with pure-virtual
`void run()`. -/
theorem claim_C5_amended_witness :
    ("void run() override;" ∈ pure_virtual_functions_to_override_declarations w5Node) ∧
    ∃ pre, "void run() override;" = pre ++ " override;" :=
  ⟨by decide, claim_C5_amended w5Node "void run() override;" (by decide)⟩

/-- Counterexample to C5 as stated: for an interface living in an anonymous
namespace the qualified name contains the regex metacharacters `(` and `)`,
`std::regex_replace` therefore does not remove the literal
`(anonymous namespace)::Iface::` qualification, and the entry still contains
that residual prefix (exhibited by the explicit decomposition below). -/
theorem claim_C5_counterexample :
    pure_virtual_functions_to_override_declarations anonNode =
      ["void (anonymous namespace)::Iface::run() override;"] ∧
    "void (anonymous namespace)::Iface::run() override;" =
      "void " ++ (anonMethod.parentQualifiedName ++ "::") ++ "run() override;" := by
  decide

/-- Claim C1 (code divergence): for a non-struct class whose only method is
explicitly private — so neither a public method chain nor a `public:` label
exists — the resolver does not return the opening-brace line with
`needs_public_label = true`; the unconditional early `return` into
`SuitablePlaceInClassFinder::find` leaves the fallback chain unreachable, and
`find` throws `BaseError` after `findNextToken` fails on the still-invalid
default location. -/
theorem claim_C1_divergence :
    c1_record.isStruct = false ∧
    find_location_after_last_public_method_in_the_first_chain c1_record = none ∧
    find_suitable_place_in_class_for_public_method c1_lexer "class C\x7bvoid priv();\x7d;"
        c1_record = .error .tokenEmpty := by
  decide

/-- Claim C2 (code divergence): a class with zero methods is a degenerate but
valid input for which the spec promises a natural fallback result, yet the
resolver throws `BaseError` (`Lexer::findNextToken` yields no token for the
invalid default location, so `unpack_source_location_from_token` throws). -/
theorem claim_C2_divergence :
    c2_record.methods = [] ∧
    find_suitable_place_in_class_for_public_method c2_lexer "class C\x7b\x7d;" c2_record =
      .error .tokenEmpty := by
  decide

theorem semiScanAux_steps_le (lx : Lexer) : ∀ (fuel cur : Nat),
    (semiScanAux lx fuel cur).2 ≤ fuel := by
  intro fuel
  induction fuel with
  | zero => intro cur; exact Nat.le_refl 0
  | succ n ih =>
    intro cur
    unfold semiScanAux
    cases hn : lx.next cur with
    | none => exact Nat.succ_le_succ (Nat.zero_le n)
    | some t =>
      obtain ⟨k, l⟩ := t
      cases k with
      | semi => exact Nat.succ_le_succ (ih l)
      | l_brace => exact Nat.succ_le_succ (Nat.zero_le n)
      | other => exact Nat.succ_le_succ (Nat.zero_le n)

/-- Claim C9: the terminator-skipping scan of
`get_insert_offset_after_location` queries the lexer at most 1000 times on
any token stream whatsoever — `Lexer.next` is an arbitrary function, so
pathological and adversarial streams are covered, and every function of this
resolver model is total, which is the termination statement for the live
resolver path. -/
theorem claim_C9 (lx : Lexer) (cur : Nat) : (semiScanAux lx 1000 cur).2 ≤ 1000 :=
  semiScanAux_steps_le lx 1000 cur

theorem std_find_eq_scan (chars : List Char) : ∀ (fuel b : Nat),
    (std_find_pos (fun c => c = '\n') ((chars.drop b).take fuel)).map (b + ·) =
      scan_for_newline chars b fuel := by
  intro fuel
  induction fuel with
  | zero => intro b; rfl
  | succ n ih =>
    intro b
    cases hd : chars.drop b with
    | nil =>
      have hlen : chars.length ≤ b := List.drop_eq_nil_iff.mp hd
      have hb : chars[b]? = none := List.getElem?_eq_none hlen
      unfold scan_for_newline
      rw [hb]
      rfl
    | cons c rest =>
      have hcb : chars[b]? = some c := by
        have h0 := List.getElem?_drop chars b 0
        rw [hd] at h0
        simpa using h0.symm
      have hrest : chars.drop (b + 1) = rest := by
        rw [← List.drop_drop, hd]
        rfl
      rw [List.take_succ_cons]
      unfold scan_for_newline
      rw [hcb]
      by_cases hc : c = '\n'
      · simp [std_find_pos, hc]
      · simp only [std_find_pos, hc, decide_False, Bool.false_eq_true, if_false,
          ite_false, Option.map_map]
        rw [← ih (b + 1), hrest]
        congr 1
        funext x
        simp [Function.comp]
        omega

theorem std_find_newline_eq (content : String) (b e : Nat) :
    std_find_newline content b e = scan_for_newline content.data b (e - b) := by
  unfold std_find_newline
  exact std_find_eq_scan content.data (e - b) b

theorem scan_some_bounds (chars : List Char) : ∀ (fuel b i : Nat),
    scan_for_newline chars b fuel = some i → b ≤ i ∧ i < b + fuel := by
  intro fuel
  induction fuel with
  | zero => intro b i h; exact absurd h (by simp [scan_for_newline])
  | succ n ih =>
    intro b i h
    unfold scan_for_newline at h
    cases hcb : chars[b]? with
    | none => rw [hcb] at h; exact absurd h (by simp)
    | some c =>
      rw [hcb] at h
      have h2 : (if c = '\n' then some b else scan_for_newline chars (b + 1) n) = some i := h
      by_cases hc : c = '\n'
      · rw [if_pos hc] at h2
        obtain rfl : b = i := Option.some.inj h2
        omega
      · rw [if_neg hc] at h2
        have := ih (b + 1) i h2
        omega

theorem semiScan_bounds (lx : Lexer) (e : Nat)
    (hb : ∀ o, o < e → next_ok lx e o = true) :
    ∀ (fuel cur : Nat), cur < e →
      cur ≤ (semiScanAux lx fuel cur).1 ∧ (semiScanAux lx fuel cur).1 ≤ e := by
  intro fuel
  induction fuel with
  | zero => intro cur hc; exact ⟨Nat.le_refl cur, Nat.le_of_lt hc⟩
  | succ n ih =>
    intro cur hc
    have hok := hb cur hc
    unfold next_ok at hok
    unfold semiScanAux
    cases hn : lx.next cur with
    | none => exact ⟨Nat.le_refl cur, Nat.le_of_lt hc⟩
    | some t =>
      rw [hn] at hok
      obtain ⟨k, l⟩ := t
      cases k with
      | semi =>
        simp only [Bool.and_eq_true, decide_eq_true_eq] at hok
        obtain ⟨⟨h1, h2⟩, h3⟩ := hok
        have hrec := ih l h3
        exact ⟨Nat.le_trans (Nat.le_of_lt h1) hrec.1, hrec.2⟩
      | l_brace =>
        simp only [Bool.and_eq_true, decide_eq_true_eq, Bool.and_true] at hok
        exact ⟨Nat.le_of_lt hok.1, hok.2⟩
      | other =>
        simp only [Bool.and_eq_true, decide_eq_true_eq, Bool.and_true] at hok
        exact ⟨Nat.le_of_lt hok.1, hok.2⟩

/-- Claim C4 (amended): in the first-public-method-chain branch the insertion
offset is obtained by scanning the buffer between the byte offset of the
first token after the chain-end location and the anchor byte offset for the
first newline — one past the newline if found, the anchor's raw byte offset
otherwise. -/
theorem claim_C4_amended (lx : Lexer) (content : String) (loc : SourceLocation) (t : Token)
    (h : findNextToken lx loc = some t) :
    get_insert_offset_after_location lx content loc =
      .ok (spec_newline_rule_offset content t.loc (spec_anchor_offset lx t)) := by
  have hred : get_insert_offset_after_location lx content loc =
      (match std_find_newline content t.loc (spec_anchor_offset lx t) with
       | some i => Except.ok (i + 1)
       | none => Except.ok (spec_anchor_offset lx t)) := by
    unfold get_insert_offset_after_location
    rw [h]
    rfl
  rw [hred, std_find_newline_eq]
  unfold spec_newline_rule_offset
  cases scan_for_newline content.data t.loc (spec_anchor_offset lx t - t.loc) <;> rfl

/-- Witness for the amended C4 on the concrete buffer `cexContent`. -/
theorem claim_C4_amended_witness :
    findNextToken cexLexer ⟨true, 25⟩ = some ⟨.other, 29⟩ ∧
    get_insert_offset_after_location cexLexer cexContent ⟨true, 25⟩ =
      .ok (spec_newline_rule_offset cexContent (Token.mk .other 29).loc
        (spec_anchor_offset cexLexer ⟨.other, 29⟩)) :=
  ⟨by decide, claim_C4_amended cexLexer cexContent ⟨true, 25⟩ ⟨.other, 29⟩ (by decide)⟩

/-- Counterexample to C4 as stated: the public method chain of `cexRecord`
ends at offset 25, the anchor is the token at offset 29, and the buffer holds
a newline at offset 26 followed by indentation; scanning from the chain-end
offset (as the claim states) would give 27, but the code scans from the first
token after the chain end and returns the anchor offset 29. -/
theorem claim_C4_counterexample :
    find_suitable_place_in_class_for_public_method cexLexer cexContent cexRecord =
      .ok ⟨29, false⟩ ∧
    find_location_after_last_public_method_in_the_first_chain cexRecord =
      some ⟨true, 25⟩ ∧
    spec_anchor_offset cexLexer ⟨.other, 29⟩ = 29 ∧
    spec_newline_rule_offset cexContent 25 29 = 27 ∧
    (29 : Nat) ≠ 27 := by
  decide

/-- Claim C3: whenever the insertion-point resolver returns an
`InsertionPoint`, its offset lies within the class body's source range
`[bodyBeginOffset, bodyEndOffset]`, given the front-end sanity conditions
that tokens after an in-body location stay inside the body (`next_ok`) and
that the public chain's end location lies inside the body
(`chain_loc_in_body`). -/
theorem claim_C3 (lx : Lexer) (content : String) (record : CXXRecordDecl)
    (ip : SuitablePublicMethodPlaceInCppFile)
    (hb : ∀ o, o < record.bodyEndOffset → next_ok lx record.bodyEndOffset o = true)
    (hc : chain_loc_in_body record = true)
    (h : find_suitable_place_in_class_for_public_method lx content record = .ok ip) :
    record.bodyBeginOffset ≤ ip.offset ∧ ip.offset ≤ record.bodyEndOffset := by
  unfold find_suitable_place_in_class_for_public_method SuitablePlaceInClassFinder_find at h
  unfold chain_loc_in_body at hc
  cases hfl : find_location_after_last_public_method_in_the_first_chain record with
  | none =>
    rw [hfl] at hc
    simp only [hfl] at h
    have hgi : get_insert_offset_after_location lx content invalid_location =
        .error .tokenEmpty := rfl
    rw [hgi] at h
    exact absurd h (by simp)
  | some l =>
    rw [hfl] at hc
    simp only [hfl] at h
    simp only [Bool.and_eq_true, decide_eq_true_eq] at hc
    obtain ⟨⟨hval, hge⟩, hlt⟩ := hc
    have hfnt : findNextToken lx l = lx.next l.offset := by
      simp [findNextToken, hval]
    cases hn : lx.next l.offset with
    | none =>
      have hgi : get_insert_offset_after_location lx content l = .error .tokenEmpty := by
        unfold get_insert_offset_after_location
        rw [hfnt, hn]
        rfl
      rw [hgi] at h
      exact absurd h (by simp)
    | some t =>
      have h2 := hb l.offset hlt
      unfold next_ok at h2
      rw [hn] at h2
      obtain ⟨k, tl⟩ := t
      cases k with
      | semi =>
        simp only [Bool.and_eq_true, decide_eq_true_eq] at h2
        obtain ⟨⟨h1, hle⟩, h3⟩ := h2
        have hbounds : tl ≤ semiScan lx 1000 tl ∧ semiScan lx 1000 tl ≤ record.bodyEndOffset :=
          semiScan_bounds lx record.bodyEndOffset hb 1000 tl h3
        have hgi : get_insert_offset_after_location lx content l =
            (match std_find_newline content tl (semiScan lx 1000 tl) with
             | some i => Except.ok (i + 1)
             | none => Except.ok (semiScan lx 1000 tl)) := by
          unfold get_insert_offset_after_location
          rw [hfnt, hn]
          rfl
        rw [hgi] at h
        cases hsf : std_find_newline content tl (semiScan lx 1000 tl) with
        | none =>
          rw [hsf] at h
          simp only [Except.ok.injEq] at h
          subst h
          dsimp only
          exact ⟨by omega, hbounds.2⟩
        | some i =>
          rw [hsf] at h
          simp only [Except.ok.injEq] at h
          subst h
          have hscan : scan_for_newline content.data tl (semiScan lx 1000 tl - tl) = some i := by
            rw [← std_find_newline_eq]
            exact hsf
          have hib := scan_some_bounds content.data (semiScan lx 1000 tl - tl) tl i hscan
          dsimp only
          exact ⟨by omega, by omega⟩
      | l_brace =>
        simp only [Bool.and_eq_true, decide_eq_true_eq, Bool.and_true] at h2
        have hgi : get_insert_offset_after_location lx content l = .ok tl := by
          unfold get_insert_offset_after_location
          rw [hfnt, hn]
          show (match std_find_newline content tl tl with
                | some i => Except.ok (i + 1)
                | none => Except.ok tl) = Except.ok tl
          have hz : std_find_newline content tl tl = none := by
            unfold std_find_newline
            simp [std_find_pos]
          rw [hz]
        rw [hgi] at h
        simp only [Except.ok.injEq] at h
        subst h
        dsimp only
        exact ⟨by omega, h2.2⟩
      | other =>
        simp only [Bool.and_eq_true, decide_eq_true_eq, Bool.and_true] at h2
        have hgi : get_insert_offset_after_location lx content l = .ok tl := by
          unfold get_insert_offset_after_location
          rw [hfnt, hn]
          show (match std_find_newline content tl tl with
                | some i => Except.ok (i + 1)
                | none => Except.ok tl) = Except.ok tl
          have hz : std_find_newline content tl tl = none := by
            unfold std_find_newline
            simp [std_find_pos]
          rw [hz]
        rw [hgi] at h
        simp only [Except.ok.injEq] at h
        subst h
        dsimp only
        exact ⟨by omega, h2.2⟩

/-- Witness for C3 on the concrete token world `w3lexer`/`w3record`. -/
theorem claim_C3_witness :
    w3record.bodyBeginOffset ≤ 23 ∧ (23 : Nat) ≤ w3record.bodyEndOffset :=
  claim_C3 w3lexer w3content w3record ⟨23, false⟩ (by decide) (by decide) (by decide)

theorem mem_data_spec_join (c : Char) (d : String) : ∀ l : List String,
    c ∈ (spec_join d l).data → (∃ s ∈ l, c ∈ s.data) ∨ c ∈ d.data := by
  intro l
  induction l with
  | nil => intro h; exact absurd h (by simp [spec_join])
  | cons x xs ih =>
    intro h
    cases xs with
    | nil => exact Or.inl ⟨x, by simp, h⟩
    | cons y ys =>
      rw [show spec_join d (x :: y :: ys) = x ++ d ++ spec_join d (y :: ys) from rfl] at h
      simp only [String.data_append] at h
      rcases List.mem_append.mp h with h1 | h2
      · rcases List.mem_append.mp h1 with ha | hd
        · exact Or.inl ⟨x, by simp, ha⟩
        · exact Or.inr hd
      · rcases ih h2 with ⟨s, hs, hcs⟩ | hd
        · exact Or.inl ⟨s, List.mem_cons_of_mem x hs, hcs⟩
        · exact Or.inr hd

theorem bracket_not_mem {s : String} (h : bracket_free_string s = true) :
    '[' ∉ s.data := by
  intro hm
  have h2 := List.all_eq_true.mp h '[' hm
  simp at h2

theorem bracket_not_mem_join {l : List String} {d : String}
    (hl : ∀ s ∈ l, '[' ∉ s.data) (hd : '[' ∉ d.data) : '[' ∉ (cpp_join l d).data := by
  rw [cpp_join_eq_spec_join]
  intro hm
  rcases mem_data_spec_join '[' d l hm with ⟨s, hs, hcs⟩ | hmd
  · exact hl s hs hcs
  · exact hd hmd

theorem bracket_not_mem_return (f : FunctionDecl)
    (h1 : bracket_free_string f.returnTypeAsString = true)
    (h2 : bracket_free_string f.templateNameText = true)
    (h3 : f.templateArgsText.all bracket_free_string = true) :
    '[' ∉ (get_return_type f).data := by
  have hj : '[' ∉ (cpp_join f.templateArgsText ", ").data := by
    refine bracket_not_mem_join ?_ (by decide)
    intro s hs
    exact bracket_not_mem (List.all_eq_true.mp h3 s hs)
  unfold get_return_type
  cases hw : f.returnTypeAsWritten.isEmpty with
  | true => simp
  | false =>
    cases hts : f.returnTypeIsTemplateSpecialization with
    | false => simpa using bracket_not_mem h1
    | true =>
      simp only [Bool.false_eq_true, if_false, ite_true, ite_false]
      unfold stringify_template_specialization
      intro hm
      simp only [String.data_append] at hm
      rcases List.mem_append.mp hm with hmm | hgt
      · rcases List.mem_append.mp hmm with hmm2 | hjoin
        · rcases List.mem_append.mp hmm2 with hname | hlt
          · exact bracket_not_mem h2 hname
          · simp at hlt
        · exact hj hjoin
      · simp at hgt

theorem bracket_not_mem_param (p : ParamInfo)
    (hty : bracket_free_string p.typeText = true)
    (hnm : bracket_free_string p.nameText = true) :
    '[' ∉ (param_to_string p).data := by
  unfold param_to_string
  cases hne : p.nameText.isEmpty with
  | true =>
    simp only [hne, Bool.not_true, Bool.false_eq_true, if_false, ite_false]
    exact bracket_not_mem hty
  | false =>
    simp only [hne, Bool.not_false, if_true, ite_true]
    intro hmp
    simp only [String.data_append] at hmp
    rcases List.mem_append.mp hmp with hmp2 | hn2
    · rcases List.mem_append.mp hmp2 with hty2 | hsp
      · exact bracket_not_mem hty hty2
      · simp at hsp
    · exact bracket_not_mem hnm hn2

theorem bracket_not_mem_name_params (f : FunctionDecl)
    (hqn : bracket_free_string f.qualifiedName = true)
    (hp : f.params.all (fun p =>
        bracket_free_string p.typeText && bracket_free_string p.nameText) = true) :
    '[' ∉ (f.qualifiedName ++ get_parameters f).data := by
  have hj : '[' ∉ (cpp_join (f.params.map param_to_string) ", ").data := by
    refine bracket_not_mem_join ?_ (by decide)
    intro s hs
    rcases List.mem_map.mp hs with ⟨p, hpmem, rfl⟩
    have hpb := List.all_eq_true.mp hp p hpmem
    simp only [Bool.and_eq_true] at hpb
    exact bracket_not_mem_param p hpb.1 hpb.2
  unfold get_parameters
  intro hm
  simp only [String.data_append] at hm
  rcases List.mem_append.mp hm with hq2 | hrest
  · exact bracket_not_mem hqn hq2
  · rcases List.mem_append.mp hrest with h2 | h3
    · rcases List.mem_append.mp h2 with hlp | hjoin
      · simp at hlp
      · exact hj hjoin
    · simp at h3

theorem cdb_imp_mem : ∀ l : List Char, contains_double_bracket l = true → '[' ∈ l := by
  intro l
  induction l with
  | nil => intro h; exact absurd h (by simp [contains_double_bracket])
  | cons c rest ih =>
    intro h
    cases rest with
    | nil => exact absurd h (by simp [contains_double_bracket])
    | cons c2 r2 =>
      rw [show contains_double_bracket (c :: c2 :: r2) =
          ((c == '[' && c2 == '[') || contains_double_bracket (c2 :: r2)) from rfl] at h
      rw [Bool.or_eq_true] at h
      rcases h with h1 | h2
      · simp only [Bool.and_eq_true, beq_iff_eq] at h1
        rw [h1.1]
        exact List.mem_cons_self _ _
      · exact List.mem_cons_of_mem c (ih h2)

/-- Claim C8: with `ignore_attribute_specifiers = true` the synthesized text
never contains a `[[...]]` attribute fragment (no two adjacent `[` at all),
even when the declaration carries standard-syntax attributes, provided the
non-attribute model strings (printed types, names, exception-spec text) are
themselves free of `[`. -/
theorem claim_C8 (f : FunctionDecl) (hf : bracket_free_inputs f = true) :
    contains_double_bracket (fully_expand_function_declaration f ⟨true⟩).data = false := by
  unfold bracket_free_inputs at hf
  simp only [Bool.and_eq_true] at hf
  obtain ⟨⟨⟨⟨⟨hrs, htn⟩, hta⟩, hqn⟩, hp⟩, hex⟩ := hf
  have hnotin : '[' ∉ (fully_expand_function_declaration f ⟨true⟩).data := by
    unfold fully_expand_function_declaration
    refine bracket_not_mem_join ?_ (by decide)
    intro s hs
    have hs2 := List.mem_of_mem_filter hs
    cases him : f.isMethod with
    | false =>
      rw [him] at hs2
      simp only [Bool.not_true, Bool.false_eq_true, if_false, ite_false, List.nil_append,
        List.append_assoc, List.cons_append, List.mem_cons, List.not_mem_nil,
        or_false, List.mem_append, List.mem_singleton, ite_true] at hs2
      rcases hs2 with rfl | rfl
      · exact bracket_not_mem_return f hrs htn hta
      · exact bracket_not_mem_name_params f hqn hp
    | true =>
      rw [him] at hs2
      simp only [Bool.not_true, Bool.false_eq_true, if_false, ite_false, ite_true,
        List.nil_append, List.append_assoc, List.cons_append, List.mem_cons,
        List.not_mem_nil, or_false, List.mem_append, List.mem_singleton] at hs2
      rcases hs2 with rfl | rfl | rfl | rfl | rfl
      · exact bracket_not_mem_return f hrs htn hta
      · exact bracket_not_mem_name_params f hqn hp
      · cases hcq : f.isConst <;> simp [hcq]
      · unfold get_ref_qualifier
        cases f.refQualifier <;> decide
      · unfold get_noexcept_qualifier
        cases hq : f.hasExceptionSpecSourceRange with
        | false => simp
        | true => simpa using bracket_not_mem hex
  cases hres : contains_double_bracket (fully_expand_function_declaration f ⟨true⟩).data with
  | false => rfl
  | true => exact absurd (cdb_imp_mem _ hres) hnotin

/-- Witness for C8: a method carrying `[[nodiscard]]`; with the option set no
`[[` appears, while the default synthesis does contain it. -/
theorem claim_C8_witness :
    bracket_free_inputs w8func = true ∧
    contains_double_bracket (fully_expand_function_declaration w8func ⟨true⟩).data = false ∧
    contains_double_bracket (fully_expand_function_declaration w8func ⟨false⟩).data = true :=
  ⟨by decide, claim_C8 w8func (by decide), by decide⟩
